import Mathlib

/-!
Shallow embedding of `src/Source/CPPScriptSignal.hpp` (template class
`ScriptSignal<Parameters...>`): the signal state, the `Connection` handle,
and the operations `Connect`, `Disconnect`, `Connected`, `Fire`, together
with a small-step event model of the `Fire`/`Wait` handshake on the shared
predicate `Idle`.

Listeners are modelled abstractly as values of a type `L`; the payload tuple
`Parameters...` is a type `A`.  Invoking a listener is recorded in a trace as
the pair (listener, arguments); a listener throwing an exception is modelled
by a boolean oracle `fails : L → A → Bool`.
-/

namespace ScriptSignal

/-- The `Connection` struct of the header.  `connId` models the identity of
the heap object (`Connection*`) held in the signal's `Connections` vector;
`Index` is the positional index captured by the `Destroy` lambda at
`Connect` time (`Index = Functions.size()` evaluated before `push_back`);
`isConnected` is the member `bool isConnected = true`. -/
structure Connection where
  connId : Nat
  Index : Nat
  isConnected : Bool
deriving DecidableEq

/-- The data members of `ScriptSignal`: `Functions` is the
`std::vector<std::function<void(Parameters...)>>` of listener callables in
registration order, `Connections` is the `std::vector<Connection*>` of
handle identities owned by the signal, and `Idle` is the
`bool Idle = false` wait predicate. -/
structure SignalState (L : Type) where
  Functions : List L
  Connections : List Nat
  Idle : Bool
deriving DecidableEq

/-- A freshly constructed signal: empty vectors, `Idle = false`. -/
def emptySignal (L : Type) : SignalState L :=
  { Functions := [], Connections := [], Idle := false }

/-- `Connection::Connected()`: returns the member `isConnected`. -/
def Connected (c : Connection) : Bool :=
  c.isConnected

/-- `ScriptSignal::Connect`: builds the handle with the captured index
`Index = Functions.size()` (evaluated before the push), then pushes the
listener onto `Functions` and the handle onto `Connections`, and returns
the handle.  The fresh handle identity is modelled by the position at which
the pointer is pushed into `Connections`. -/
def Connect {L : Type} (s : SignalState L) (f : L) : SignalState L × Connection :=
  let idx := s.Functions.length
  let cid := s.Connections.length
  ({ Functions := s.Functions ++ [f]
     Connections := s.Connections ++ [cid]
     Idle := s.Idle },
   { connId := cid, Index := idx, isConnected := true })

/-- `std::vector::erase(begin() + i)`: erasing at an in-range position
removes exactly that element; an out-of-range position is undefined
behaviour in C++, modelled as `none`. -/
def eraseAt {L : Type} (l : List L) (i : Nat) : Option (List L) :=
  if i < l.length then some (l.eraseIdx i) else none

/-- `Connection::Disconnect()`: if `isConnected`, call the captured
`Destroy` lambda — `Functions.erase(Functions.begin() + Index)` — and set
`isConnected = false`; otherwise do nothing.  `none` marks the undefined
behaviour of an out-of-range erase. -/
def Disconnect {L : Type} (s : SignalState L) (c : Connection) :
    Option (SignalState L × Connection) :=
  if c.isConnected then
    (eraseAt s.Functions c.Index).map
      (fun fs => ({ s with Functions := fs }, { c with isConnected := false }))
  else
    some (s, c)

/-- Connect each listener of a list in turn, returning the final state and
the handles in order. -/
def connectAll {L : Type} (s : SignalState L) : List L → SignalState L × List Connection
  | [] => (s, [])
  | f :: rest =>
    let p := Connect s f
    let q := connectAll p.1 rest
    (q.1, p.2 :: q.2)

/-- The dispatch loop of `Fire`: invoke the listeners in order, each with
the arguments; `fails g args = true` models the invocation of `g` throwing.
Returns the trace of started invocations and the thrown listener, if any:
the loop stops at the first throw (no try/catch in the source). -/
def runListeners {L A : Type} (fails : L → A → Bool) (args : A) :
    List L → List (L × A) × Option L
  | [] => ([], none)
  | f :: rest =>
    if fails f args then ([(f, args)], some f)
    else
      let r := runListeners fails args rest
      ((f, args) :: r.1, r.2)

/-- Observable outcome of one `Fire` call: the invocation trace, the state
after the call, whether `Condition.notify_all()` ran, and the listener
whose exception propagated to the caller (if any). -/
structure FireResult (L A : Type) where
  trace : List (L × A)
  state : SignalState L
  notified : Bool
  thrown : Option L
deriving DecidableEq

/-- `ScriptSignal::Fire`: if `Functions.empty()` return at once; otherwise
run the dispatch loop, and only after the loop completes take the mutex,
set `Idle = true` and `notify_all`.  An exception from a listener skips the
whole tail of the function (no try/catch), so the state and the waiters are
untouched. -/
def Fire {L A : Type} (fails : L → A → Bool) (args : A) (s : SignalState L) :
    FireResult L A :=
  if s.Functions.isEmpty then
    { trace := [], state := s, notified := false, thrown := none }
  else
    match runListeners fails args s.Functions with
    | (tr, some f) => { trace := tr, state := s, notified := false, thrown := some f }
    | (tr, none) =>
      { trace := tr, state := { s with Idle := true }, notified := true, thrown := none }

/-- `~ScriptSignal()`: `for (const auto& Connection : Connections) delete
Connection;` — the destructor frees exactly the handles held in the
`Connections` vector. -/
def destructorFrees {L : Type} (s : SignalState L) : List Nat :=
  s.Connections

/-- Events touching the shared predicate `Idle`, in program order of the
source: `fireWake` is the wake-up step of a non-empty `Fire`
(`Idle = true; Condition.notify_all();`), `fireEmpty` is a `Fire` on an
empty `Functions` vector (returns before any synchronization), `waitBegin`
is the first statement of `Wait` (`Idle = false;`). -/
inductive Ev where
  | fireWake
  | fireEmpty
  | waitBegin
deriving DecidableEq

/-- Effect of one event on the predicate `Idle`. -/
def evStep (b : Bool) : Ev → Bool
  | .fireWake => true
  | .fireEmpty => b
  | .waitBegin => false

/-- Value of `Idle` after a sequence of events, starting from `b`.  A
blocked `Wait` returns exactly when this value is `true`
(`Condition.wait(Lock, [this] { return Idle; })`). -/
def runEvents (b : Bool) : List Ev → Bool
  | [] => b
  | e :: es => runEvents (evStep b e) es

/-- One access to the shared predicate `Idle`, with whether the mutex
`Current` is held at that access. -/
structure PredAccess where
  isWrite : Bool
  underLock : Bool
deriving DecidableEq

/-- The accesses `Wait` makes to `Idle`, in program order of the source:
the reset `Idle = false;` happens before `std::unique_lock Lock(Current);`
is taken, so it is not under the lock; the predicate check inside
`Condition.wait(Lock, ...)` runs with the lock held. -/
def waitPredAccesses : List PredAccess :=
  [{ isWrite := true, underLock := false },
   { isWrite := false, underLock := true }]

/-- The access `Fire` makes to `Idle`: `Idle = true;` under
`std::lock_guard<std::mutex> Hold(Current);`. -/
def firePredAccesses : List PredAccess :=
  [{ isWrite := true, underLock := true }]

/-! ### Helper lemmas -/

/-- `connectAll` appends the connected listeners to `Functions` in order. -/
lemma connectAll_functions {L : Type} (fs : List L) (s : SignalState L) :
    ((connectAll s fs).1).Functions = s.Functions ++ fs := by
  induction fs generalizing s with
  | nil => simp [connectAll]
  | cons f rest ih =>
    simp [connectAll, Connect, ih]

/-- When no listener throws, the dispatch loop invokes each listener once,
in order, with the arguments, and nothing propagates. -/
lemma runListeners_all_ok {L A : Type} (fails : L → A → Bool) (args : A)
    (fs : List L) (h : ∀ g ∈ fs, fails g args = false) :
    runListeners fails args fs = (fs.map fun g => (g, args), none) := by
  induction fs with
  | nil => rfl
  | cons f rest ih =>
    have hf : fails f args = false := h f (by simp)
    have hr := ih (fun g hg => h g (by simp [hg]))
    simp [runListeners, hf, hr]

/-- When the first throwing listener is `f`, the dispatch loop invokes
exactly the listeners before it and `f` itself, then propagates. -/
lemma runListeners_throws {L A : Type} (fails : L → A → Bool) (args : A)
    (gs post : List L) (f : L)
    (hgs : ∀ g ∈ gs, fails g args = false) (hf : fails f args = true) :
    runListeners fails args (gs ++ f :: post) =
      ((gs.map fun g => (g, args)) ++ [(f, args)], some f) := by
  induction gs with
  | nil => simp [runListeners, hf]
  | cons a rest ih =>
    have ha : fails a args = false := hgs a (by simp)
    have hr := ih (fun g hg => hgs g (by simp [hg]))
    simp [runListeners, ha, hr]

/-- Case analysis of a `Disconnect` call that did not hit undefined
behaviour: either the handle was already disconnected and nothing changed,
or the captured index was in range, the entry at that index was erased from
`Functions`, and the handle's flag was cleared. -/
lemma disconnect_elim {L : Type} {s s' : SignalState L} {c c' : Connection}
    (h : Disconnect s c = some (s', c')) :
    (c.isConnected = false ∧ s' = s ∧ c' = c) ∨
    (c.isConnected = true ∧ c.Index < s.Functions.length ∧
      s' = { s with Functions := s.Functions.eraseIdx c.Index } ∧
      c' = { c with isConnected := false }) := by
  by_cases hc : c.isConnected = true
  · by_cases hi : c.Index < s.Functions.length
    · right
      simp only [Disconnect, hc, if_true, eraseAt, hi, Option.map_some',
        Option.some.injEq, Prod.mk.injEq] at h
      exact ⟨hc, hi, h.1.symm, h.2.symm⟩
    · exfalso
      simp [Disconnect, hc, eraseAt, hi] at h
  · left
    have hc0 : c.isConnected = false := by simpa using hc
    simp only [Disconnect, hc0, Bool.false_eq_true, if_false,
      Option.some.injEq, Prod.mk.injEq] at h
    exact ⟨hc0, h.1.symm, h.2.symm⟩

/-- Any event other than `waitBegin` preserves a true predicate, so once a
wake-up has set `Idle` and no further `Wait` begins, `Idle` stays true. -/
lemma runEvents_true_of_no_waitBegin (l : List Ev) (h : Ev.waitBegin ∉ l) :
    runEvents true l = true := by
  induction l with
  | nil => rfl
  | cons e es ih =>
    have he : e ≠ Ev.waitBegin := fun hh => h (hh ▸ List.mem_cons_self e es)
    have hes : Ev.waitBegin ∉ es := fun hh => h (List.mem_cons_of_mem e hh)
    cases e with
    | fireWake => simpa [runEvents, evStep] using ih hes
    | fireEmpty => simpa [runEvents, evStep] using ih hes
    | waitBegin => exact absurd rfl he

/-- From a false predicate, only the wake-up step of a non-empty `Fire` can
make the predicate true. -/
lemma fireWake_of_runEvents (l : List Ev) (h : runEvents false l = true) :
    Ev.fireWake ∈ l := by
  induction l with
  | nil => simp [runEvents] at h
  | cons e es ih =>
    cases e with
    | fireWake => exact List.mem_cons_self _ _
    | fireEmpty => exact List.mem_cons_of_mem _ (ih (by simpa [runEvents, evStep] using h))
    | waitBegin => exact List.mem_cons_of_mem _ (ih (by simpa [runEvents, evStep] using h))

/-- Splitting a run of events at an append. -/
lemma runEvents_append (b : Bool) (l1 l2 : List Ev) :
    runEvents b (l1 ++ l2) = runEvents (runEvents b l1) l2 := by
  induction l1 generalizing b with
  | nil => rfl
  | cons e es ih => simp [runEvents, ih]



/-! ### Claims -/

/-- C1 fails on the code: the erase capability is a positional index frozen
at Connect time.  With listeners 0, 1, 2 connected (handles with captured
indices 0, 1, 2), disconnecting the first handle and then the second erases
listener 2 — whose handle was never disconnected — instead of listener 1,
so a subsequent Fire invokes the disconnected listener 1 and does not
invoke the still-connected listener 2. -/
theorem C1_stale_index_erases_wrong_listener :
    ((Disconnect ((Connect ((Connect ((Connect (emptySignal Nat) 0).1) 1).1) 2).1)
        ((Connect (emptySignal Nat) 0).2)).bind
      fun q => Disconnect q.1 ((Connect ((Connect (emptySignal Nat) 0).1) 1).2))
      = some (⟨[1], [0, 1, 2], false⟩, ⟨1, 1, false⟩) ∧
    (Fire (fun _ _ => false) () (⟨[1], [0, 1, 2], false⟩ : SignalState Nat)).trace
      = [(1, ())] ∧
    Connected ((Connect ((Connect ((Connect (emptySignal Nat) 0).1) 1).1) 2).2) = true := by
  decide

/-- C2: for every sequence of Connect calls starting from a fresh signal,
Fire invokes every registered listener exactly once, with the given
arguments, in registration order, and nothing propagates to the caller. -/
theorem C2_fire_invokes_in_registration_order {L A : Type} (fs : List L) (args : A)
    (fails : L → A → Bool) (h : ∀ g ∈ fs, fails g args = false) :
    (Fire fails args (connectAll (emptySignal L) fs).1).trace
        = fs.map (fun g => (g, args)) ∧
    (Fire fails args (connectAll (emptySignal L) fs).1).thrown = none := by
  have hfn : ((connectAll (emptySignal L) fs).1).Functions = fs := by
    simpa [emptySignal] using connectAll_functions fs (emptySignal L)
  have hrun := runListeners_all_ok fails args fs h
  cases fs with
  | nil => constructor <;> simp [Fire, hfn]
  | cons a rest => constructor <;> simp [Fire, hfn, hrun]

/-- Witness for C2: connect 7 then 8 on a fresh signal; Fire invokes 7 then
8, each once, with the argument, and nothing is thrown. -/
theorem C2_fire_invokes_in_registration_order_witness :
    (Fire (fun _ _ => false) () (connectAll (emptySignal Nat) [7, 8]).1).trace
        = [(7, ()), (8, ())] ∧
    (Fire (fun _ _ => false) () (connectAll (emptySignal Nat) [7, 8]).1).thrown = none :=
  C2_fire_invokes_in_registration_order [7, 8] () (fun _ _ => false) (by decide)

/-- C3: registering the same callable twice produces two listener entries
(a Fire invokes it twice) and two distinct Connection handles; disconnecting
either one of the two handles leaves the other handle Connected and its
listener still invoked by a subsequent Fire. -/
theorem C3_duplicate_callable_independent {L A : Type} (f : L) (args : A) :
    ((Connect ((Connect (emptySignal L) f).1) f).1).Functions = [f, f] ∧
    (Connect (emptySignal L) f).2 ≠ (Connect ((Connect (emptySignal L) f).1) f).2 ∧
    (Fire (fun _ _ => false) args ((Connect ((Connect (emptySignal L) f).1) f).1)).trace
        = [(f, args), (f, args)] ∧
    (Disconnect ((Connect ((Connect (emptySignal L) f).1) f).1)
          ((Connect (emptySignal L) f).2)).map
        (fun q => (Connected ((Connect ((Connect (emptySignal L) f).1) f).2),
                   (Fire (fun _ _ => false) args q.1).trace))
        = some (true, [(f, args)]) ∧
    (Disconnect ((Connect ((Connect (emptySignal L) f).1) f).1)
          ((Connect ((Connect (emptySignal L) f).1) f).2)).map
        (fun q => (Connected ((Connect (emptySignal L) f).2),
                   (Fire (fun _ _ => false) args q.1).trace))
        = some (true, [(f, args)]) := by
  refine ⟨rfl, ?_, rfl, rfl, rfl⟩
  intro h
  have hid := congrArg Connection.connId h
  simp [Connect, emptySignal] at hid

/-- C4: if a listener throws during Fire, the exception propagates to the
caller unmodified, listeners later in registration order are not invoked,
Idle is not set to true (the state is untouched), and notify_all does not
run. -/
theorem C4_listener_exception_propagates {L A : Type} (fails : L → A → Bool)
    (args : A) (s : SignalState L) (gs post : List L) (f : L)
    (hfs : s.Functions = gs ++ f :: post)
    (hgs : ∀ g ∈ gs, fails g args = false) (hf : fails f args = true) :
    Fire fails args s =
      { trace := (gs.map fun g => (g, args)) ++ [(f, args)]
        state := s
        notified := false
        thrown := some f } := by
  have hrun := runListeners_throws fails args gs post f hgs hf
  have hne : s.Functions.isEmpty = false := by simp [hfs]
  simp [Fire, hne, hfs, hrun]

/-- Witness for C4: listeners 0, 1, 2 with listener 1 throwing — Fire
invokes 0 then 1, skips 2, leaves the state unchanged, does not notify, and
propagates listener 1's exception. -/
theorem C4_listener_exception_propagates_witness :
    Fire (fun g _ => g == 1) () (⟨[0, 1, 2], [0, 1, 2], false⟩ : SignalState Nat) =
      { trace := [(0, ()), (1, ())]
        state := ⟨[0, 1, 2], [0, 1, 2], false⟩
        notified := false
        thrown := some 1 } :=
  C4_listener_exception_propagates (fun g _ => g == 1) ()
    ⟨[0, 1, 2], [0, 1, 2], false⟩ [0] [2] 1 rfl (by decide) (by decide)

/-- C5: Fire on a signal whose dispatch sequence is empty is a no-op: no
listener is invoked, the state (Idle included) is unchanged, notify_all
does not run, nothing is thrown; and in the event model the predicate stays
false across such a fire, so a Wait begun earlier remains blocked. -/
theorem C5_empty_fire_noop {L A : Type} (fails : L → A → Bool) (args : A)
    (s : SignalState L) (b : Bool) (h : s.Functions = []) :
    Fire fails args s = { trace := [], state := s, notified := false, thrown := none } ∧
    runEvents b [Ev.waitBegin, Ev.fireEmpty] = false := by
  constructor
  · simp [Fire, h]
  · rfl

/-- Witness for C5 at a fresh signal over Nat payloads. -/
theorem C5_empty_fire_noop_witness :
    Fire (fun _ _ => false) () (emptySignal Nat)
        = { trace := [], state := emptySignal Nat, notified := false, thrown := none } ∧
    runEvents true [Ev.waitBegin, Ev.fireEmpty] = false :=
  C5_empty_fire_noop (fun _ _ => false) () (emptySignal Nat) true rfl

/-- C6: Disconnect is idempotent and Disconnected is terminal: after a
successful Disconnect the handle reports Connected() = false, a second
Disconnect returns the same state and handle with no further effect and no
error, and a disconnected handle is inert against every signal state —
nothing ever returns it to Connected. -/
theorem C6_disconnect_idempotent {L : Type} (s s' : SignalState L)
    (c c' : Connection) (h : Disconnect s c = some (s', c')) :
    Connected c' = false ∧ Disconnect s' c' = some (s', c') ∧
      ∀ t : SignalState L, Disconnect t c' = some (t, c') := by
  have hc : c'.isConnected = false := by
    rcases disconnect_elim h with ⟨hc0, _, hcc⟩ | ⟨_, _, _, hcc⟩
    · rw [hcc]; exact hc0
    · rw [hcc]
  exact ⟨hc, by simp [Disconnect, hc], fun t => by simp [Disconnect, hc]⟩

/-- Witness for C6: disconnecting the only handle of a one-listener signal,
then checking the handle is inert — also against a different state. -/
theorem C6_disconnect_idempotent_witness :
    Connected ⟨0, 0, false⟩ = false ∧
    Disconnect (⟨[], [0], false⟩ : SignalState Nat) ⟨0, 0, false⟩
        = some (⟨[], [0], false⟩, ⟨0, 0, false⟩) ∧
    Disconnect (⟨[9], [], true⟩ : SignalState Nat) ⟨0, 0, false⟩
        = some (⟨[9], [], true⟩, ⟨0, 0, false⟩) := by
  have h := C6_disconnect_idempotent (⟨[5], [0], false⟩ : SignalState Nat)
    ⟨[], [0], false⟩ ⟨0, 0, true⟩ ⟨0, 0, false⟩ (by decide)
  exact ⟨h.1, h.2.1, h.2.2 ⟨[9], [], true⟩⟩

/-- C7: no event buffering for Wait: right after Wait begins (its entry
resets the predicate) the predicate is false regardless of any earlier
fires, and if the predicate is later true — the condition under which the
blocked Wait returns — then the wake-up step of a non-empty Fire occurred
strictly after the Wait began. -/
theorem C7_wait_observes_only_later_fire (pre mid : List Ev) (b : Bool)
    (h : runEvents b (pre ++ Ev.waitBegin :: mid) = true) :
    runEvents b (pre ++ [Ev.waitBegin]) = false ∧ Ev.fireWake ∈ mid := by
  constructor
  · rw [runEvents_append]; rfl
  · have h1 : Ev.waitBegin :: mid = [Ev.waitBegin] ++ mid := rfl
    rw [h1, ← List.append_assoc, runEvents_append, runEvents_append] at h
    exact fireWake_of_runEvents mid (by simpa [runEvents, evStep] using h)

/-- Witness for C7: a fire wake-up, then a Wait begins, then another
wake-up; the Wait sees a false predicate at entry and the true predicate it
later returns on is due to the strictly later wake-up. -/
theorem C7_wait_observes_only_later_fire_witness :
    runEvents true ([Ev.fireWake] ++ [Ev.waitBegin]) = false ∧
      Ev.fireWake ∈ [Ev.fireEmpty, Ev.fireWake] :=
  C7_wait_observes_only_later_fire [Ev.fireWake] [Ev.fireEmpty, Ev.fireWake] true (by decide)

/-- C8 as stated is false on the code: it is not the case that every access
to the shared predicate Idle holds the mutex — Wait executes its reset
`Idle = false;` before `std::unique_lock Lock(Current);` acquires the
lock. -/
theorem C8_reset_outside_lock_counterexample :
    (waitPredAccesses.all fun a => a.underLock) = false := by
  decide

/-- C8 amended: Fire's write of Idle together with notify_all runs with the
mutex held, and Wait's predicate check-and-block runs with the mutex held;
only Wait's entry reset of Idle precedes the lock acquisition.  In the
interleaving model this still wakes the waiter: in every interleaving of
one Wait with a subsequent non-empty Fire — a trace starting at the Wait's
reset that later contains the Fire's wake-up step, with no further Wait
entry after that wake-up — the predicate ends true, so the Wait returns. -/
theorem C8_amended_wakeup_not_lost (m1 m2 : List Ev) (b : Bool)
    (h : Ev.waitBegin ∉ m2) :
    (firePredAccesses.all fun a => a.underLock) = true ∧
    ((waitPredAccesses.filter fun a => !a.isWrite).all fun a => a.underLock) = true ∧
    runEvents b (Ev.waitBegin :: (m1 ++ Ev.fireWake :: m2)) = true := by
  refine ⟨by decide, by decide, ?_⟩
  have h1 : runEvents b (Ev.waitBegin :: (m1 ++ Ev.fireWake :: m2))
      = runEvents false (m1 ++ Ev.fireWake :: m2) := rfl
  rw [h1, runEvents_append]
  have h2 : runEvents (runEvents false m1) (Ev.fireWake :: m2) = runEvents true m2 := rfl
  rw [h2]
  exact runEvents_true_of_no_waitBegin m2 h

/-- Witness for the amended C8: the Wait begins, an empty fire happens,
then a non-empty Fire reaches its wake-up step — the predicate ends true
and the Wait is released. -/
theorem C8_amended_wakeup_not_lost_witness :
    (firePredAccesses.all fun a => a.underLock) = true ∧
    ((waitPredAccesses.filter fun a => !a.isWrite).all fun a => a.underLock) = true ∧
    runEvents false (Ev.waitBegin :: ([Ev.fireEmpty] ++ Ev.fireWake :: [])) = true :=
  C8_amended_wakeup_not_lost [Ev.fireEmpty] [] false (by decide)

/-- C9: Disconnect mutates only the Functions vector and the handle's own
flag: the Connections collection and Idle are unchanged, the handle's
identity remains in the collection, and the destructor frees exactly the
handles of that unchanged collection. -/
theorem C9_disconnect_frame {L : Type} (s s' : SignalState L)
    (c c' : Connection) (h : Disconnect s c = some (s', c')) :
    s'.Connections = s.Connections ∧ s'.Idle = s.Idle ∧
      destructorFrees s' = s.Connections ∧
      (c.connId ∈ s.Connections → c.connId ∈ destructorFrees s') := by
  rcases disconnect_elim h with ⟨_, hss, _⟩ | ⟨_, _, hss, _⟩ <;>
    subst hss <;>
    exact ⟨rfl, rfl, rfl, fun hm => hm⟩

/-- Witness for C9: disconnecting the only handle of a one-listener signal
leaves the Connections collection and Idle unchanged, and the handle id 0
is still among those the destructor frees. -/
theorem C9_disconnect_frame_witness :
    (⟨[], [0], false⟩ : SignalState Nat).Connections = [0] ∧
    (⟨[], [0], false⟩ : SignalState Nat).Idle = false ∧
    destructorFrees (⟨[], [0], false⟩ : SignalState Nat) = [0] ∧
    (0 : Nat) ∈ destructorFrees (⟨[], [0], false⟩ : SignalState Nat) := by
  have h := C9_disconnect_frame (⟨[5], [0], false⟩ : SignalState Nat)
    ⟨[], [0], false⟩ ⟨0, 0, true⟩ ⟨0, 0, false⟩ (by decide)
  exact ⟨h.1, h.2.1, h.2.2.1, h.2.2.2 (by decide)⟩

/-- C10: every freshly created Connection starts Connected: immediately
after Connect returns, Connected() on the returned handle is true. -/
theorem C10_fresh_connection_connected {L : Type} (s : SignalState L) (f : L) :
    Connected (Connect s f).2 = true :=
  rfl

end ScriptSignal
